import Mathlib

/-!
Shallow embedding of the principal-directory core of `share/settings/users.go`
(package `settings`): the concurrency-safe `Users` set, the JSON file loader
`loadUserIndex` / `LoadUsers`, and the database loader `updateUsersData` /
`LoadUsersFromDatabase` / `listenForChanges`.

External collaborators (filesystem, JSON decoder, regular-expression engine,
database driver) are black boxes per the specification; they are modelled by
explicit input data (file-read outcomes, pre-decoded JSON as a key/value
sequence, database row-scan outcomes).  `log.Fatalf` from the Go standard
library logs and then terminates the process with `os.Exit(1)`; it is modelled
by the distinguished outcome `Outcome.exit`, under which the statements that
follow it in the Go source are unreachable.
-/

/-- Model of the external regular-expression engine (a black box per the
spec): a compiled pattern is just its source text. -/
structure Regex where
  pattern : String
deriving DecidableEq, Repr

/-- Model of the external regular-expression engine: whether compilation of a
pattern succeeds.  The only property the program relies on is that compilation
is a pure function that fails on some malformed patterns; malformedness is
modelled as unbalanced parentheses. -/
def regexBalanced : List Char → Nat → Bool
  | [], 0 => true
  | [], _ + 1 => false
  | c :: rest, d =>
    if c = '(' then regexBalanced rest (d + 1)
    else if c = ')' then
      match d with
      | 0 => false
      | d' + 1 => regexBalanced rest d'
    else regexBalanced rest d

/-- Model of `regexp.Compile` from the external engine: returns a compiled
pattern, or an error on a malformed one. -/
def regexpCompile (p : String) : Except String Regex :=
  if regexBalanced p.data 0 then Except.ok ⟨p⟩ else Except.error "error parsing regexp"

/-- Whether a character list occurs at the start of another. -/
def startsWithL : List Char → List Char → Bool
  | _, [] => true
  | [], _ :: _ => false
  | a :: as, b :: bs => a = b && startsWithL as bs

/-- Whether a character list occurs somewhere inside another. -/
def containsSub (pat : List Char) : List Char → Bool
  | [] => startsWithL [] pat
  | c :: rest => startsWithL (c :: rest) pat || containsSub pat rest

/-- Model of the external engine's unanchored match of a compiled pattern
against a probe string (opaque to the program; any pure predicate serves). -/
def Regex.matchString (r : Regex) (s : String) : Bool :=
  containsSub r.pattern.data s.data

/-- Modelled from the spec: a `Matcher` (glossary) is a compiled predicate over
an address string, either the distinguished allow-all sentinel or a
regular-expression test.  (In the repository these are the `*regexp.Regexp`
values stored in `User.Addrs`, declared in `user.go`, which is not under
`src/`.) -/
inductive Matcher
  | allowAll
  | regex (r : Regex)
deriving DecidableEq, Repr

/-- Modelled from the spec: the distinguished allow-all matcher sentinel
`UserAllowAll` (declared in `user.go`, not under `src/`) denotes unconditional
acceptance. -/
def UserAllowAll : Matcher := Matcher.allowAll

/-- Modelled from the spec: a matcher is a predicate over an address string;
allow-all accepts every probed address string, a regular-expression matcher
tests the pattern against the address. -/
def Matcher.accepts : Matcher → String → Bool
  | Matcher.allowAll, _ => true
  | Matcher.regex r, s => r.matchString s

/-- Modelled from the spec: the `User` record (declared in `user.go`, not
under `src/`): name, secret, and the ordered sequence of address matchers. -/
structure User where
  Name : String
  Pass : String
  Addrs : List Matcher
deriving DecidableEq, Repr

/-- Modelled from the spec: `ParseAuth` (declared in `user.go`, not under
`src/`) splits a "name:secret" token on the first colon and fails — returns an
empty name — if no colon is present; a token whose part before the first colon
is empty likewise yields an empty name. -/
def ParseAuth (auth : String) : String × String :=
  if ':' ∈ auth.data then
    (⟨auth.data.takeWhile (fun c => c ≠ ':')⟩,
     ⟨(auth.data.dropWhile (fun c => c ≠ ':')).drop 1⟩)
  else ("", "")

/-- The Go `map[string]*User` inside `Users`, modelled as an association list
with unique keys maintained by `mapInsert`. -/
abbrev GoMap := List (String × User)

/-- Point lookup, `m[key]` (users.go:38). -/
def lookupMap : GoMap → String → Option User
  | [], _ => none
  | (k, v) :: rest, key => if k = key then some v else lookupMap rest key

/-- Map assignment `m[key] = v`: replaces the binding if the key is present,
otherwise adds it (the Go built-in map-store semantics). -/
def mapInsert : GoMap → String → User → GoMap
  | [], key, v => [(key, v)]
  | (k, w) :: rest, key, v =>
    if k = key then (key, v) :: rest else (k, w) :: mapInsert rest key v

/-- The keys of the map, for reasoning about `len`. -/
def mapKeys (m : GoMap) : List String := m.map Prod.fst

/-- The loop body of `Users.Reset` (users.go:65-68): build a fresh map from
the user sequence by `m[u.Name] = u` in order, starting from empty. -/
def goMapOfUsers (users : List User) : GoMap :=
  users.foldl (fun m u => mapInsert m u.Name u) []

/-- `Users` (users.go:18-21): the lock-protected mapping.  The `sync.RWMutex`
has no pure content; the lock discipline is captured by the shared-state write
sequences of each operation (see `resetWrites`). -/
structure Users where
  inner : GoMap
deriving DecidableEq, Repr

/-- `NewUsers` (users.go:23-25). -/
def NewUsers : Users := ⟨[]⟩

/-- `Users.Len` (users.go:28-33): the number of entries. -/
def Users.Len (u : Users) : Nat := u.inner.length

/-- `Users.Get` (users.go:36-41): read-locked point lookup; `none` models
`found = false`. -/
def Users.Get (u : Users) (key : String) : Option User := lookupMap u.inner key

/-- `Users.Set` (users.go:44-48): write-locked single-entry store. -/
def Users.Set (u : Users) (key : String) (user : User) : Users :=
  ⟨mapInsert u.inner key user⟩

/-- `Users.Reset` (users.go:64-72): builds a fresh map `m` from the given
sequence (a purely local value) and then, under the write lock, installs it as
the active mapping in a single assignment. -/
def Users.Reset (_u : Users) (users : List User) : Users := ⟨goMapOfUsers users⟩

/-- The inline pattern-compilation step shared verbatim by the file loader
(users.go:291-299) and the database loader (users.go:147-158): `""` and `"*"`
become the allow-all matcher, anything else is compiled as a regular
expression, and a compile failure fails the caller with "Invalid address
regex". -/
def compilePattern (r : String) : Except String Matcher :=
  if r = "" || r = "*" then Except.ok UserAllowAll
  else
    match regexpCompile r with
    | Except.ok re => Except.ok (Matcher.regex re)
    | Except.error _ => Except.error "Invalid address regex"

/-- The per-entry loop over `remotes` (users.go:290-300): compile each pattern
in order, aborting on the first failure. -/
def compileAddrs : List String → Except String (List Matcher)
  | [] => Except.ok []
  | r :: rest =>
    match compilePattern r with
    | Except.error e => Except.error e
    | Except.ok m =>
      match compileAddrs rest with
      | Except.error e => Except.error e
      | Except.ok ms => Except.ok (m :: ms)

/-- The outcome of `os.ReadFile` + `json.Unmarshal` on the configuration file
(external black boxes per the spec).  A decoded JSON object is presented as a
key/value sequence, since Go map iteration order is unspecified; `noConfigFile`
models `u.configFile == ""` (users.go:272). -/
inductive FileInput
  | noConfigFile
  | unreadable (msg : String)
  | invalidJson (msg : String)
  | parsed (raw : List (String × List String))
deriving DecidableEq, Repr

/-- The entry loop of `loadUserIndex` (users.go:284-302): for each
"name:secret" key, parse it (empty name is fatal), compile its address
patterns (any failure is fatal), and accumulate the users in order. -/
def parseEntries : List (String × List String) → Except String (List User)
  | [] => Except.ok []
  | (auth, remotes) :: rest =>
    if (ParseAuth auth).1 = "" then Except.error "Invalid user:pass string"
    else
      match compileAddrs remotes with
      | Except.error e => Except.error e
      | Except.ok addrs =>
        match parseEntries rest with
        | Except.error e => Except.error e
        | Except.ok us =>
          Except.ok ({ Name := (ParseAuth auth).1, Pass := (ParseAuth auth).2,
                       Addrs := addrs } :: us)

/-- `loadUserIndex` (users.go:271-306): on any read/decode/parse/compile error
return the error without touching the `Users` set; on full success call
`Reset` once with the accumulated sequence. -/
def loadUserIndex (input : FileInput) (s : Users) : Except String Unit × Users :=
  match input with
  | FileInput.noConfigFile => (Except.error "configuration file not set", s)
  | FileInput.unreadable msg => (Except.error ("Failed to read auth file: " ++ msg), s)
  | FileInput.invalidJson msg => (Except.error ("Invalid JSON: " ++ msg), s)
  | FileInput.parsed raw =>
    match parseEntries raw with
    | Except.error e => (Except.error e, s)
    | Except.ok users => (Except.ok (), Users.Reset s users)

/-- The environment of `LoadUsers` (users.go:90-100): the configuration-file
content and whether `fsnotify.NewWatcher`/`watcher.Add` succeed
(users.go:248-254). -/
structure FileEnv where
  input : FileInput
  watchOk : Bool
deriving DecidableEq, Repr

/-- How a load attempt ends.  `err` is an error value returned to the caller;
`exit` is `log.Fatalf`, which logs and terminates the process with
`os.Exit(1)`, so nothing after it executes and no error is returned. -/
inductive Outcome
  | ok
  | err (msg : String)
  | exit (msg : String)
deriving DecidableEq, Repr

/-- Result of a top-level load: outcome, final set, and whether the background
watch/listen task was started. -/
structure LoadResult where
  outcome : Outcome
  users : Users
  watchStarted : Bool
deriving DecidableEq, Repr

/-- `LoadUsers` (users.go:90-100): synchronous `loadUserIndex` first and
return its error on failure; only then `addWatchEvents` (users.go:247-268),
whose watch goroutine is started only after the watcher registration
succeeds. -/
def LoadUsers (env : FileEnv) (s : Users) : LoadResult :=
  match loadUserIndex env.input s with
  | (Except.error e, s') => ⟨Outcome.err e, s', false⟩
  | (Except.ok _, s') =>
    if env.watchOk then ⟨Outcome.ok, s', true⟩
    else ⟨Outcome.err "watcher error", s', false⟩

/-- A database row as presented to `rows.Scan` (users.go:136-166): the driver
is a black box, so each row is either a successful scan result or a scan
error. -/
structure DbRow where
  username : String
  password : String
  addresses : List String
deriving DecidableEq, Repr

/-- The observable shape and content of the database at one reload: whether
the `columnExists` information-schema query succeeds (users.go:102-115),
whether the table currently has an `addresses` column, whether `conn.Query`
succeeds (users.go:128), the per-row scan outcomes, and the terminal
`rows.Err()` value (users.go:173). -/
structure Db where
  colCheckOk : Bool
  hasAddresses : Bool
  queryOk : Bool
  rows : List (Except String DbRow)
  rowsErr : Option String
deriving Repr

/-- The row loop of `updateUsersData` (users.go:136-171): scan each row
(aborting on a scan error); with an `addresses` column compile each address
string exactly as the file loader does, aborting on a malformed one; without
the column give the row's user the single allow-all matcher. -/
def scanRows (hasAddresses : Bool) : List (Except String DbRow) → Except String (List User)
  | [] => Except.ok []
  | Except.error e :: _ => Except.error e
  | Except.ok row :: rest =>
    if hasAddresses then
      match compileAddrs row.addresses with
      | Except.error e => Except.error e
      | Except.ok addrs =>
        match scanRows hasAddresses rest with
        | Except.error e => Except.error e
        | Except.ok us =>
          Except.ok ({ Name := row.username, Pass := row.password, Addrs := addrs } :: us)
    else
      match scanRows hasAddresses rest with
      | Except.error e => Except.error e
      | Except.ok us =>
        Except.ok ({ Name := row.username, Pass := row.password, Addrs := [UserAllowAll] } :: us)

/-- `updateUsersData` (users.go:117-180): re-detect the `addresses` column,
query, scan every row into a local slice, and only on full success call
`Reset` once.  Every failure path goes through `log.Fatalf`, i.e. process
exit, so `Reset` is never reached on error. -/
def updateUsersData (db : Db) (s : Users) : Outcome × Users :=
  if db.colCheckOk then
    if db.queryOk then
      match scanRows db.hasAddresses db.rows with
      | Except.error e => (Outcome.exit e, s)
      | Except.ok users =>
        match db.rowsErr with
        | some e => (Outcome.exit e, s)
        | none => (Outcome.ok, Users.Reset s users)
    else (Outcome.exit "Error in getting users data", s)
  else (Outcome.exit "Error checking if column exists", s)

/-- The environment of `LoadUsersFromDatabase` (users.go:182-208): whether
`pgx.ParseURI` accepts the connection string, whether `pgx.Connect` succeeds,
and the database content. -/
structure DbEnv where
  uriOk : Bool
  connectOk : Bool
  db : Db
deriving Repr

/-- `^[a-zA-Z_][a-zA-Z0-9_]*$` (users.go:186): the table-name validation
pattern, as a character predicate over the full string. -/
def validTableName (t : String) : Bool :=
  match t.data with
  | [] => false
  | c :: cs => (c.isAlpha || c = '_') && cs.all (fun c => c.isAlphanum || c = '_')

/-- Result of `LoadUsersFromDatabase`: outcome, final set, whether the
`listenForChanges` goroutine was started, and whether `updateUsersData` (the
query against the table) was reached. -/
structure DbLoadResult where
  outcome : Outcome
  users : Users
  listenStarted : Bool
  queryIssued : Bool
deriving DecidableEq, Repr

/-- The body of `LoadUsersFromDatabase` after table-name validation
(users.go:194-207): parse the URI (`log.Fatalf` on failure); `pgx.Connect`,
and — before the connect error is even checked — `go listenForChanges(...)`
(users.go:200-201), so the listener goroutine is started regardless of whether
the connection or the subsequent initial load succeeds. -/
def connectAndLoad (env : DbEnv) (s : Users) : DbLoadResult :=
  if env.uriOk then
    if env.connectOk then
      match updateUsersData env.db s with
      | (o, r) => ⟨o, r, true, true⟩
    else ⟨Outcome.exit "Error in connecting to database", s, true, false⟩
  else ⟨Outcome.exit "Error in Parsing the URI", s, false, false⟩

/-- `LoadUsersFromDatabase` (users.go:182-208): when a table name is supplied
it is validated against `validTableName`; an invalid name hits `log.Fatalf`
(process exit — the `return fmt.Errorf(...)` after it is unreachable) before
any connection or query.  The table name itself does not otherwise affect the
modelled behaviour. -/
def LoadUsersFromDatabase (env : DbEnv) (tableName : Option String) (s : Users) : DbLoadResult :=
  match tableName with
  | some t =>
    if validTableName t then connectAndLoad env s
    else ⟨Outcome.exit "Invalid table name", s, false, false⟩
  | none => connectAndLoad env s

/-- One atomic action on the shared `Users.inner` reference: a locked write of
a whole map, or a locked read of one key. -/
inductive Op
  | write (m : GoMap)
  | read (k : String)

/-- The sequence of shared-state writes an operation list performs. -/
def writesOf : List Op → List GoMap
  | [] => []
  | Op.write m :: t => m :: writesOf t
  | Op.read _ :: t => writesOf t

/-- The sequence of keys an operation list reads. -/
def readsOf : List Op → List String
  | [] => []
  | Op.write _ :: t => readsOf t
  | Op.read k :: t => k :: readsOf t

/-- Run an interleaved operation list against the shared map, collecting what
each read observes. -/
def runReads : GoMap → List Op → List (String × Option User)
  | _, [] => []
  | _, Op.write m :: t => runReads m t
  | s, Op.read k :: t => (k, lookupMap s k) :: runReads s t

/-- The shared-state writes `Users.Reset users` performs (users.go:64-72): the
build loop mutates only the local map `m`, so the single shared write is the
locked assignment `u.inner = m` of the completed map. -/
def resetWrites (users : List User) : List GoMap := [goMapOfUsers users]

/-- One step of key accumulation: add the name if it is new. -/
def dedupStep (ks : List String) (n : String) : List String :=
  if n ∈ ks then ks else ks ++ [n]

/-- The relation between one raw JSON entry and the user the loader's entry
loop builds from it. -/
def EntryUser (e : String × List String) (u : User) : Prop :=
  (ParseAuth e.1).1 ≠ "" ∧ u.Name = (ParseAuth e.1).1 ∧ u.Pass = (ParseAuth e.1).2 ∧
    compileAddrs e.2 = Except.ok u.Addrs

/-- The user a raw JSON entry denotes, for stating lookup results (its matcher
list defaults to empty when the entry's patterns do not compile, a case ruled
out on any successful load). -/
def entryUser (e : String × List String) : User :=
  { Name := (ParseAuth e.1).1, Pass := (ParseAuth e.1).2,
    Addrs := (compileAddrs e.2).toOption.getD [] }

/-- The last entry of the raw JSON sequence whose key parses to the probed
name, as the user it denotes. -/
def lastMatch (raw : List (String × List String)) (name : String) : Option User :=
  raw.foldl (fun acc e => if (ParseAuth e.1).1 = name then some (entryUser e) else acc) none

/-- Lookup after a single map store: the stored key maps to the new value,
every other key is unaffected. -/
theorem lookup_mapInsert (m : GoMap) (k key : String) (v : User) :
    lookupMap (mapInsert m k v) key = if k = key then some v else lookupMap m key := by
  induction m with
  | nil => simp [mapInsert, lookupMap]
  | cons p rest ih =>
    obtain ⟨a, w⟩ := p
    simp only [mapInsert]
    by_cases hak : a = k
    · subst hak
      simp only [if_pos rfl, lookupMap]
      by_cases hk : a = key <;> simp [hk]
    · simp only [if_neg hak, lookupMap, ih]
      split_ifs with h1 h2 <;> simp_all

/-- The keys after a single map store: unchanged if the key was present,
extended by it otherwise. -/
theorem mapKeys_mapInsert (m : GoMap) (k : String) (v : User) :
    mapKeys (mapInsert m k v) = if k ∈ mapKeys m then mapKeys m else mapKeys m ++ [k] := by
  induction m with
  | nil => simp [mapInsert, mapKeys]
  | cons p rest ih =>
    obtain ⟨a, w⟩ := p
    simp only [mapInsert]
    by_cases hak : a = k
    · subst hak
      simp [mapKeys]
    · simp only [if_neg hak, mapKeys, List.map_cons] at ih ⊢
      rw [ih]
      have hka : ¬ k = a := fun h => hak h.symm
      by_cases hk : k ∈ List.map Prod.fst rest <;>
        simp [hk, hka, List.mem_cons]

/-- The key list of the `Reset` build loop is the name list deduplicated. -/
theorem mapKeys_foldl (l : List User) (m : GoMap) :
    mapKeys (l.foldl (fun m u => mapInsert m u.Name u) m) =
      (l.map User.Name).foldl dedupStep (mapKeys m) := by
  induction l generalizing m with
  | nil => rfl
  | cons u t ih =>
    simp only [List.foldl_cons, List.map_cons]
    rw [ih, dedupStep, mapKeys_mapInsert]

/-- Membership in the accumulated key list. -/
theorem mem_foldl_dedupStep (names : List String) (ks : List String) (a : String) :
    a ∈ names.foldl dedupStep ks ↔ a ∈ ks ∨ a ∈ names := by
  induction names generalizing ks with
  | nil => simp
  | cons n t ih =>
    simp only [List.foldl_cons, ih, dedupStep, List.mem_cons]
    by_cases h : n ∈ ks
    · simp only [if_pos h]
      constructor
      · rintro (h1 | h2)
        · exact Or.inl h1
        · exact Or.inr (Or.inr h2)
      · rintro (h1 | h2 | h3)
        · exact Or.inl h1
        · exact Or.inl (h2 ▸ h)
        · exact Or.inr h3
    · simp only [if_neg h, List.mem_append, List.mem_singleton]
      tauto

/-- The accumulated key list has no duplicates. -/
theorem nodup_foldl_dedupStep (names : List String) (ks : List String) (h : ks.Nodup) :
    (names.foldl dedupStep ks).Nodup := by
  induction names generalizing ks with
  | nil => exact h
  | cons n t ih =>
    simp only [List.foldl_cons]
    apply ih
    unfold dedupStep
    by_cases hn : n ∈ ks
    · simpa [hn]
    · rw [if_neg hn]
      refine h.append (List.nodup_singleton n) ?_
      intro a ha hb
      rw [List.mem_singleton] at hb
      exact hn (hb ▸ ha)

/-- The size of the map built by `Reset` is the number of distinct names in
the input sequence. -/
theorem length_goMapOfUsers (l : List User) :
    (goMapOfUsers l).length = (l.map User.Name).dedup.length := by
  have hkeys : mapKeys (goMapOfUsers l) = (l.map User.Name).foldl dedupStep [] :=
    mapKeys_foldl l []
  have hnodup : ((l.map User.Name).foldl dedupStep []).Nodup :=
    nodup_foldl_dedupStep _ [] List.nodup_nil
  have hmem : ∀ a, a ∈ (l.map User.Name).foldl dedupStep [] ↔ a ∈ l.map User.Name := by
    intro a
    rw [mem_foldl_dedupStep]
    simp
  have hfin : ((l.map User.Name).foldl dedupStep []).toFinset = (l.map User.Name).toFinset := by
    apply Finset.ext
    intro a
    simp only [List.mem_toFinset]
    exact hmem a
  have hlen : (goMapOfUsers l).length = (mapKeys (goMapOfUsers l)).length := by
    simp [mapKeys]
  rw [hlen, hkeys, ← List.toFinset_card_of_nodup hnodup, hfin, List.card_toFinset]

/-- Lookup in the map built by the `Reset` loop, phrased as a left fold that
keeps the last user with the probed name. -/
theorem lookup_foldl_insert (l : List User) (m : GoMap) (k : String) :
    lookupMap (l.foldl (fun m u => mapInsert m u.Name u) m) k =
      l.foldl (fun acc u => if u.Name = k then some u else acc) (lookupMap m k) := by
  induction l generalizing m with
  | nil => rfl
  | cons u t ih =>
    simp only [List.foldl_cons]
    rw [ih, lookup_mapInsert]

/-- Lookup in the `Reset` map: the last input user bearing the name wins. -/
theorem lookup_goMapOfUsers (l : List User) (k : String) :
    lookupMap (goMapOfUsers l) k =
      l.foldl (fun acc u => if u.Name = k then some u else acc) none := by
  unfold goMapOfUsers
  rw [lookup_foldl_insert]
  rfl

/-- A successful last-wins fold yields an element of the list with the probed
name (or the initial accumulator). -/
theorem foldl_lastWins_mem (l : List User) (k : String) (acc : Option User) (u : User)
    (h : l.foldl (fun acc u => if u.Name = k then some u else acc) acc = some u) :
    (u ∈ l ∧ u.Name = k) ∨ acc = some u := by
  induction l generalizing acc with
  | nil => exact Or.inr h
  | cons v t ih =>
    simp only [List.foldl_cons] at h
    rcases ih _ h with ⟨hmem, hname⟩ | hacc
    · exact Or.inl ⟨List.mem_cons_of_mem v hmem, hname⟩
    · by_cases hv : v.Name = k
      · rw [if_pos hv] at hacc
        injection hacc with h2
        subst h2
        exact Or.inl ⟨List.mem_cons_self v t, hv⟩
      · rw [if_neg hv] at hacc
        exact Or.inr hacc

/-- A related element exists on the right of a `Forall₂` for each member of
the left list. -/
theorem forall2_mem_left {α β : Type} {R : α → β → Prop} {l1 : List α} {l2 : List β}
    (h : List.Forall₂ R l1 l2) {a : α} (ha : a ∈ l1) : ∃ b ∈ l2, R a b := by
  induction h with
  | nil => cases ha
  | @cons x y t1 t2 h1 h2 ih =>
    rcases List.mem_cons.mp ha with rfl | ha'
    · exact ⟨y, List.mem_cons_self y t2, h1⟩
    · obtain ⟨b, hb, hr⟩ := ih ha'
      exact ⟨b, List.mem_cons_of_mem y hb, hr⟩

/-- A successful entry loop relates every raw entry to the user built from
it, in order. -/
theorem parseEntries_ok_forall (raw : List (String × List String)) (users : List User)
    (h : parseEntries raw = Except.ok users) : List.Forall₂ EntryUser raw users := by
  induction raw generalizing users with
  | nil =>
    simp only [parseEntries, Except.ok.injEq] at h
    subst h
    exact List.Forall₂.nil
  | cons e rest ih =>
    obtain ⟨auth, remotes⟩ := e
    simp only [parseEntries] at h
    by_cases hname : (ParseAuth auth).1 = ""
    · rw [if_pos hname] at h
      simp at h
    · rw [if_neg hname] at h
      cases hc : compileAddrs remotes with
      | error e' => rw [hc] at h; simp at h
      | ok addrs =>
        rw [hc] at h
        cases hp : parseEntries rest with
        | error e' => rw [hp] at h; simp at h
        | ok us =>
          rw [hp] at h
          simp only [Except.ok.injEq] at h
          subst h
          exact List.Forall₂.cons ⟨hname, rfl, rfl, hc⟩ (ih us hp)

/-- On a successful pattern-list compilation, every single pattern compiled
successfully. -/
theorem compileAddrs_ok_mem (remotes : List String) (ms : List Matcher)
    (h : compileAddrs remotes = Except.ok ms) :
    ∀ r ∈ remotes, ∃ m, compilePattern r = Except.ok m := by
  induction remotes generalizing ms with
  | nil => intro r hr; cases hr
  | cons a t ih =>
    intro r hr
    simp only [compileAddrs] at h
    cases hc : compilePattern a with
    | error e => rw [hc] at h; simp at h
    | ok m =>
      rw [hc] at h
      cases ht : compileAddrs t with
      | error e => rw [ht] at h; simp at h
      | ok ms' =>
        rcases List.mem_cons.mp hr with rfl | hr'
        · exact ⟨m, hc⟩
        · exact ih ms' ht r hr'

/-- The successful entry loop's name list is exactly the parsed names of the
raw entries. -/
theorem forall2_names (raw : List (String × List String)) (users : List User)
    (h : List.Forall₂ EntryUser raw users) :
    users.map User.Name = raw.map (fun e => (ParseAuth e.1).1) := by
  induction h with
  | nil => rfl
  | @cons a b l1 l2 h1 h2 ih => simp [ih, h1.2.1]

/-- Last-wins folds over related raw entries and built users coincide. -/
theorem foldl_lastMatch_eq (raw : List (String × List String)) (users : List User)
    (h : List.Forall₂ EntryUser raw users) (k : String) (acc : Option User) :
    users.foldl (fun acc u => if u.Name = k then some u else acc) acc =
      raw.foldl (fun acc e => if (ParseAuth e.1).1 = k then some (entryUser e) else acc) acc := by
  induction h generalizing acc with
  | nil => rfl
  | @cons a b l1 l2 h1 h2 ih =>
    obtain ⟨hne, hName, hPass, hAddrs⟩ := h1
    have heq : entryUser a = b := by
      cases b with
      | mk n p ad =>
        simp only [entryUser, hAddrs, Except.toOption, Option.getD_some] at *
        simp_all
    have hstep : (if b.Name = k then some b else acc) =
        (if (ParseAuth a.1).1 = k then some (entryUser a) else acc) := by
      rw [hName, heq]
    simp only [List.foldl_cons]
    rw [hstep, ih]

/-- Any error return of `loadUserIndex` leaves the `Users` set untouched. -/
theorem loadUserIndex_error_state (input : FileInput) (s : Users) (e : String) (r : Users)
    (h : loadUserIndex input s = (Except.error e, r)) : r = s := by
  cases input with
  | noConfigFile => exact (congrArg Prod.snd h).symm
  | unreadable msg => exact (congrArg Prod.snd h).symm
  | invalidJson msg => exact (congrArg Prod.snd h).symm
  | parsed raw =>
    simp only [loadUserIndex] at h
    cases hp : parseEntries raw with
    | error e' => rw [hp] at h; exact (congrArg Prod.snd h).symm
    | ok users => rw [hp] at h; simp at h

/-- One raw entry with an unparsable key makes the whole load fail with the
set untouched. -/
theorem load_error_of_empty_name (s : Users) (raw : List (String × List String))
    (auth : String) (remotes : List String) (hmem : (auth, remotes) ∈ raw)
    (hname : (ParseAuth auth).1 = "") :
    ∃ e, loadUserIndex (FileInput.parsed raw) s = (Except.error e, s) := by
  cases hp : parseEntries raw with
  | error e => exact ⟨e, by simp [loadUserIndex, hp]⟩
  | ok users =>
    exfalso
    obtain ⟨u, _, hr⟩ := forall2_mem_left (parseEntries_ok_forall raw users hp) hmem
    exact hr.1 hname

/-- One raw entry with one uncompilable pattern makes the whole load fail with
the set untouched. -/
theorem load_error_of_bad_pattern (s : Users) (raw : List (String × List String))
    (auth : String) (remotes : List String) (pat : String) (hmem : (auth, remotes) ∈ raw)
    (hpat : pat ∈ remotes) (hbad : ∃ msg, compilePattern pat = Except.error msg) :
    ∃ e, loadUserIndex (FileInput.parsed raw) s = (Except.error e, s) := by
  cases hp : parseEntries raw with
  | error e => exact ⟨e, by simp [loadUserIndex, hp]⟩
  | ok users =>
    exfalso
    obtain ⟨u, _, hr⟩ := forall2_mem_left (parseEntries_ok_forall raw users hp) hmem
    obtain ⟨m, hm⟩ := compileAddrs_ok_mem remotes u.Addrs hr.2.2.2 pat hpat
    obtain ⟨msg, hmsg⟩ := hbad
    rw [hm] at hmsg
    cases hmsg

/-- A row whose scan fails makes the whole row loop fail. -/
theorem scanRows_error_row (hasA : Bool) (rows : List (Except String DbRow)) (m : String)
    (hm : Except.error m ∈ rows) : ∃ e, scanRows hasA rows = Except.error e := by
  induction rows with
  | nil => cases hm
  | cons row rest ih =>
    cases row with
    | error e => exact ⟨e, by cases hasA <;> rfl⟩
    | ok r =>
      have hm' : Except.error m ∈ rest := by
        rcases List.mem_cons.mp hm with h | h
        · cases h
        · exact h
      obtain ⟨e, he⟩ := ih hm'
      cases hasA with
      | false => exact ⟨e, by simp [scanRows, he]⟩
      | true =>
        cases hc : compileAddrs r.addresses with
        | error e2 => exact ⟨e2, by simp [scanRows, hc]⟩
        | ok ms => exact ⟨e, by simp [scanRows, hc, he]⟩

/-- A successful `updateUsersData` ran the full row loop and ended in the
single `Reset`; it also records that every gate on the way was passed. -/
theorem updateUsersData_ok (db : Db) (s : Users) (r : Users)
    (h : updateUsersData db s = (Outcome.ok, r)) :
    ∃ users, db.colCheckOk = true ∧ db.queryOk = true ∧
      scanRows db.hasAddresses db.rows = Except.ok users ∧ db.rowsErr = none ∧
      r = Users.Reset s users := by
  unfold updateUsersData at h
  by_cases h1 : db.colCheckOk
  · rw [if_pos h1] at h
    by_cases h2 : db.queryOk
    · rw [if_pos h2] at h
      cases hs : scanRows db.hasAddresses db.rows with
      | error e => rw [hs] at h; simp at h
      | ok users =>
        rw [hs] at h
        cases hr : db.rowsErr with
        | some e => rw [hr] at h; simp at h
        | none =>
          rw [hr] at h
          exact ⟨users, h1, h2, rfl, rfl, (congrArg Prod.snd h).symm⟩
    · rw [if_neg h2] at h; simp at h
  · rw [if_neg h1] at h; simp at h

/-- Any non-ok outcome of `updateUsersData` leaves the `Users` set
untouched. -/
theorem updateUsersData_error_state (db : Db) (s : Users) (o : Outcome) (r : Users)
    (h : updateUsersData db s = (o, r)) (ho : o ≠ Outcome.ok) : r = s := by
  unfold updateUsersData at h
  by_cases h1 : db.colCheckOk
  · rw [if_pos h1] at h
    by_cases h2 : db.queryOk
    · rw [if_pos h2] at h
      cases hs : scanRows db.hasAddresses db.rows with
      | error e => rw [hs] at h; exact (congrArg Prod.snd h).symm
      | ok users =>
        rw [hs] at h
        cases hr : db.rowsErr with
        | some e => rw [hr] at h; exact (congrArg Prod.snd h).symm
        | none =>
          rw [hr] at h
          exact absurd (congrArg Prod.fst h).symm ho
    · rw [if_neg h2] at h; exact (congrArg Prod.snd h).symm
  · rw [if_neg h1] at h; exact (congrArg Prod.snd h).symm

/-- A failing row scan means the database reload does not succeed and the set
stays as it was. -/
theorem updateUsersData_badRow (db : Db) (s : Users) (m : String)
    (hm : Except.error m ∈ db.rows) :
    (updateUsersData db s).1 ≠ Outcome.ok ∧ (updateUsersData db s).2 = s := by
  have hne : (updateUsersData db s).1 ≠ Outcome.ok := by
    unfold updateUsersData
    by_cases h1 : db.colCheckOk
    · rw [if_pos h1]
      by_cases h2 : db.queryOk
      · rw [if_pos h2]
        obtain ⟨e, he⟩ := scanRows_error_row db.hasAddresses db.rows m hm
        rw [he]
        simp
      · rw [if_neg h2]; simp
    · rw [if_neg h1]; simp
  exact ⟨hne, updateUsersData_error_state db s _ _ rfl hne⟩

/-- Without an `addresses` column, every user the row loop builds carries the
single allow-all matcher. -/
theorem scanRows_false_allowAll (rows : List (Except String DbRow)) (us : List User)
    (h : scanRows false rows = Except.ok us) : ∀ u ∈ us, u.Addrs = [UserAllowAll] := by
  induction rows generalizing us with
  | nil =>
    simp only [scanRows, Except.ok.injEq] at h
    subst h
    intro u hu
    cases hu
  | cons row rest ih =>
    cases row with
    | error e => simp [scanRows] at h
    | ok r =>
      simp only [scanRows, Bool.false_eq_true, if_false] at h
      cases hs : scanRows false rest with
      | error e => rw [hs] at h; simp at h
      | ok us' =>
        rw [hs] at h
        simp only [Except.ok.injEq] at h
        subst h
        intro u hu
        rcases List.mem_cons.mp hu with rfl | hu'
        · rfl
        · exact ih us' hs u hu'

/-- With an `addresses` column, every user the row loop builds carries exactly
the compiled matcher list of its row's address strings. -/
theorem scanRows_true_compiled (rows : List (Except String DbRow)) (us : List User)
    (h : scanRows true rows = Except.ok us) :
    ∀ u ∈ us, ∃ row, Except.ok row ∈ rows ∧ row.username = u.Name ∧ row.password = u.Pass ∧
      compileAddrs row.addresses = Except.ok u.Addrs := by
  induction rows generalizing us with
  | nil =>
    simp only [scanRows, Except.ok.injEq] at h
    subst h
    intro u hu
    cases hu
  | cons row rest ih =>
    cases row with
    | error e => simp [scanRows] at h
    | ok r =>
      simp only [scanRows, if_true] at h
      cases hc : compileAddrs r.addresses with
      | error e => rw [hc] at h; simp at h
      | ok addrs =>
        rw [hc] at h
        cases hs : scanRows true rest with
        | error e => rw [hs] at h; simp at h
        | ok us' =>
          rw [hs] at h
          simp only [Except.ok.injEq] at h
          subst h
          intro u hu
          rcases List.mem_cons.mp hu with rfl | hu'
          · exact ⟨r, List.mem_cons_self _ _, rfl, rfl, hc⟩
          · obtain ⟨row, hrow, h1, h2, h3⟩ := ih us' hs u hu'
            exact ⟨row, List.mem_cons_of_mem _ hrow, h1, h2, h3⟩

/-- A user found in a freshly reset set is one of the reset sequence, keyed by
its name. -/
theorem get_reset_mem (s : Users) (users : List User) (k : String) (u : User)
    (h : (Users.Reset s users).Get k = some u) : u ∈ users ∧ u.Name = k := by
  unfold Users.Reset Users.Get at h
  rw [show lookupMap (goMapOfUsers users) k =
      users.foldl (fun acc u => if u.Name = k then some u else acc) none from
    lookup_goMapOfUsers users k] at h
  rcases foldl_lastWins_mem users k none u h with h' | h'
  · exact h'
  · exact Option.noConfusion h'

/-- An operation list with no writes reads the initial snapshot throughout. -/
theorem runReads_no_writes (s : GoMap) (ops : List Op) (h : writesOf ops = []) :
    runReads s ops = (readsOf ops).map (fun k => (k, lookupMap s k)) := by
  induction ops generalizing s with
  | nil => rfl
  | cons op t ih =>
    cases op with
    | write m => simp [writesOf] at h
    | read k =>
      simp only [writesOf] at h
      simp [runReads, readsOf, ih s h]

/-- C1: while `Users.Reset` replaces the snapshot, a concurrent reader's
lookups split into a prefix answered entirely by the old snapshot and a suffix
answered entirely by the new one — no lookup ever observes a mixed mapping,
because the swap is the single shared-state write. -/
theorem reset_atomic_C1 (s0 : GoMap) (users : List User) (ops : List Op)
    (h : writesOf ops = resetWrites users) :
    ∃ ks1 ks2, readsOf ops = ks1 ++ ks2 ∧
      runReads s0 ops =
        ks1.map (fun k => (k, lookupMap s0 k)) ++
        ks2.map (fun k => (k, lookupMap (goMapOfUsers users) k)) := by
  induction ops generalizing s0 with
  | nil => simp [writesOf, resetWrites] at h
  | cons op t ih =>
    cases op with
    | read k =>
      simp only [writesOf] at h
      obtain ⟨ks1, ks2, h1, h2⟩ := ih s0 h
      exact ⟨k :: ks1, ks2, by simp [readsOf, h1], by simp [runReads, h2]⟩
    | write m =>
      simp only [writesOf, resetWrites] at h
      injection h with hm ht
      subst hm
      refine ⟨[], readsOf t, by simp [readsOf], ?_⟩
      simp only [runReads, List.map_nil, List.nil_append]
      exact runReads_no_writes _ t ht

/-- C1 witness: a concrete interleaving of two lookups around one reset. -/
theorem reset_atomic_C1_witness :
    ∃ ks1 ks2,
      readsOf [Op.read "a", Op.write (goMapOfUsers [⟨"a", "x", []⟩]), Op.read "a"] =
        ks1 ++ ks2 ∧
      runReads [] [Op.read "a", Op.write (goMapOfUsers [⟨"a", "x", []⟩]), Op.read "a"] =
        ks1.map (fun k => (k, lookupMap [] k)) ++
        ks2.map (fun k => (k, lookupMap (goMapOfUsers [⟨"a", "x", []⟩]) k)) :=
  reset_atomic_C1 [] [⟨"a", "x", []⟩] _ rfl

/-- C4: a successful file load makes the set's size the number of distinct
parsed names, and each name resolves to the user denoted by the last raw entry
bearing it (later duplicates overwrite earlier ones). -/
theorem load_success_contents_C4 (raw : List (String × List String)) (s s' : Users)
    (h : loadUserIndex (FileInput.parsed raw) s = (Except.ok (), s')) :
    s'.Len = ((raw.map (fun e => (ParseAuth e.1).1)).dedup).length ∧
    ∀ name, s'.Get name = lastMatch raw name := by
  simp only [loadUserIndex] at h
  cases hp : parseEntries raw with
  | error e => rw [hp] at h; simp at h
  | ok users =>
    rw [hp] at h
    have hs' : Users.Reset s users = s' := congrArg Prod.snd h
    subst hs'
    have hf := parseEntries_ok_forall raw users hp
    constructor
    · show (goMapOfUsers users).length = _
      rw [length_goMapOfUsers, forall2_names raw users hf]
    · intro name
      show lookupMap (goMapOfUsers users) name = lastMatch raw name
      rw [lookup_goMapOfUsers]
      exact foldl_lastMatch_eq raw users hf name none

/-- C4 witness: two entries parsing to the same name; the later secret wins
and the count is one. -/
theorem load_success_contents_C4_witness :
    (Users.mk [("a", { Name := "a", Pass := "y", Addrs := [Matcher.allowAll] })]).Len =
      (([("a:x", ([] : List String)), ("a:y", ["*"])].map
        (fun e => (ParseAuth e.1).1)).dedup).length ∧
    ∀ name,
      (Users.mk [("a", { Name := "a", Pass := "y", Addrs := [Matcher.allowAll] })]).Get name =
        lastMatch [("a:x", []), ("a:y", ["*"])] name :=
  load_success_contents_C4 [("a:x", []), ("a:y", ["*"])] NewUsers
    (Users.mk [("a", { Name := "a", Pass := "y", Addrs := [Matcher.allowAll] })]) rfl

/-- Well-formed entries (nonempty parsed name, compilable patterns) make the
entry loop succeed. -/
theorem parseEntries_ok_of_good (raw : List (String × List String))
    (h : ∀ e ∈ raw, (ParseAuth e.1).1 ≠ "" ∧ ∃ ms, compileAddrs e.2 = Except.ok ms) :
    ∃ users, parseEntries raw = Except.ok users := by
  induction raw with
  | nil => exact ⟨[], rfl⟩
  | cons e rest ih =>
    obtain ⟨auth, remotes⟩ := e
    obtain ⟨hne, ms, hms⟩ := h (auth, remotes) (List.mem_cons_self _ _)
    obtain ⟨us, hus⟩ := ih (fun e he => h e (List.mem_cons_of_mem _ he))
    refine ⟨{ Name := (ParseAuth auth).1, Pass := (ParseAuth auth).2, Addrs := ms } :: us, ?_⟩
    have hne2 : ¬ ((ParseAuth auth).1 = "") := hne
    rw [parseEntries, if_neg hne2, hms, hus]

/-- Conversely, a successful entry loop had only well-formed entries. -/
theorem parseEntries_good_of_ok (raw : List (String × List String)) (users : List User)
    (h : parseEntries raw = Except.ok users) :
    ∀ e ∈ raw, (ParseAuth e.1).1 ≠ "" ∧ ∃ ms, compileAddrs e.2 = Except.ok ms := by
  intro e he
  obtain ⟨u, _, hr⟩ := forall2_mem_left (parseEntries_ok_forall raw users h) he
  exact ⟨hr.1, u.Addrs, hr.2.2.2⟩

/-- The last-wins fold skips every entry whose parsed name is not the probed
one. -/
theorem lastMatch_skip (l : List (String × List String)) (name : String) (acc : Option User)
    (h : ∀ e ∈ l, (ParseAuth e.1).1 ≠ name) :
    l.foldl (fun acc e => if (ParseAuth e.1).1 = name then some (entryUser e) else acc) acc =
      acc := by
  induction l generalizing acc with
  | nil => rfl
  | cons e rest ih =>
    rw [List.foldl_cons, if_neg (h e (List.mem_cons_self _ _))]
    exact ih _ (fun e he => h e (List.mem_cons_of_mem _ he))

/-- When parsed names are pairwise distinct, the last-wins fold returns the
unique entry bearing the probed name — independently of entry order. -/
theorem lastMatch_unique (raw : List (String × List String)) (name : String) :
    ∀ e, (raw.map (fun e => (ParseAuth e.1).1)).Nodup → e ∈ raw →
      (ParseAuth e.1).1 = name → lastMatch raw name = some (entryUser e) := by
  induction raw with
  | nil =>
    intro e _ he _
    cases he
  | cons f rest ih =>
    intro e hnodup he hname
    rw [List.map_cons, List.nodup_cons] at hnodup
    obtain ⟨hf, hrest⟩ := hnodup
    simp only [lastMatch, List.foldl_cons] at ih ⊢
    rcases List.mem_cons.mp he with rfl | he2
    · rw [if_pos hname]
      refine lastMatch_skip rest name _ ?_
      intro g hg hgname
      apply hf
      rw [hname, ← hgname]
      exact List.mem_map_of_mem _ hg
    · have hfname : (ParseAuth f.1).1 ≠ name := by
        intro hfn
        apply hf
        rw [hfn, ← hname]
        exact List.mem_map_of_mem _ he2
      rw [if_neg hfname]
      exact ih e hrest he2 hname

/-- When no entry bears the probed name, the last-wins fold finds nothing. -/
theorem lastMatch_none (raw : List (String × List String)) (name : String)
    (h : ∀ e ∈ raw, (ParseAuth e.1).1 ≠ name) : lastMatch raw name = none :=
  lastMatch_skip raw name none h

/-- With pairwise distinct parsed names, the last-wins result is invariant
under reordering of the entries. -/
theorem lastMatch_perm (raw1 raw2 : List (String × List String)) (name : String)
    (hperm : raw2.Perm raw1)
    (hnodup : (raw1.map (fun e => (ParseAuth e.1).1)).Nodup) :
    lastMatch raw2 name = lastMatch raw1 name := by
  have hnodup2 : (raw2.map (fun e => (ParseAuth e.1).1)).Nodup :=
    ((hperm.map _).nodup_iff).mpr hnodup
  by_cases hex : ∃ e ∈ raw1, (ParseAuth e.1).1 = name
  · obtain ⟨e, he, hname⟩ := hex
    rw [lastMatch_unique raw1 name e hnodup he hname,
        lastMatch_unique raw2 name e hnodup2 (hperm.mem_iff.mpr he) hname]
  · push_neg at hex
    rw [lastMatch_none raw1 name hex,
        lastMatch_none raw2 name (fun e he => hex e (hperm.mem_iff.mp he))]

/-- C9 (amended): loading the same file twice yields an observably identical
snapshot whenever no two keys of the decoded object parse to the same name:
the second load may present the same entries in any order — Go's map
iteration at users.go:284 is order-unspecified — and may start from any prior
set, yet it succeeds and agrees with the first load's snapshot on the count,
on every lookup, and on every matcher's accept/reject behaviour at every
probe address.  With duplicate parsed names this fails; see the
counterexample. -/
theorem load_same_file_idempotent_C9 (raw1 raw2 : List (String × List String))
    (s t r : Users) (hperm : raw2.Perm raw1)
    (hnodup : (raw1.map (fun e => (ParseAuth e.1).1)).Nodup)
    (h : loadUserIndex (FileInput.parsed raw1) s = (Except.ok (), r)) :
    ∃ r2, loadUserIndex (FileInput.parsed raw2) t = (Except.ok (), r2) ∧
      r2.Len = r.Len ∧ (∀ name, r2.Get name = r.Get name) ∧
      (∀ name addr u u2, r2.Get name = some u → r.Get name = some u2 →
        u.Addrs.map (fun m => m.accepts addr) = u2.Addrs.map (fun m => m.accepts addr)) := by
  simp only [loadUserIndex] at h
  cases hp1 : parseEntries raw1 with
  | error e => rw [hp1] at h; simp at h
  | ok users1 =>
    rw [hp1] at h
    have hr : Users.Reset s users1 = r := congrArg Prod.snd h
    have hgood : ∀ e ∈ raw2, (ParseAuth e.1).1 ≠ "" ∧ ∃ ms, compileAddrs e.2 = Except.ok ms :=
      fun e he => parseEntries_good_of_ok raw1 users1 hp1 e (hperm.mem_iff.mp he)
    obtain ⟨users2, hp2⟩ := parseEntries_ok_of_good raw2 hgood
    have hget : ∀ name, (Users.Reset t users2).Get name = r.Get name := by
      intro name
      rw [← hr]
      show lookupMap (goMapOfUsers users2) name = lookupMap (goMapOfUsers users1) name
      rw [lookup_goMapOfUsers, lookup_goMapOfUsers,
          foldl_lastMatch_eq raw2 users2 (parseEntries_ok_forall raw2 users2 hp2) name none,
          foldl_lastMatch_eq raw1 users1 (parseEntries_ok_forall raw1 users1 hp1) name none]
      exact lastMatch_perm raw1 raw2 name hperm hnodup
    have hlen : (Users.Reset t users2).Len = r.Len := by
      rw [← hr]
      show (goMapOfUsers users2).length = (goMapOfUsers users1).length
      rw [length_goMapOfUsers, length_goMapOfUsers,
          forall2_names raw1 users1 (parseEntries_ok_forall raw1 users1 hp1),
          forall2_names raw2 users2 (parseEntries_ok_forall raw2 users2 hp2)]
      exact ((hperm.map _).dedup).length_eq
    refine ⟨Users.Reset t users2, by simp [loadUserIndex, hp2], hlen, hget, ?_⟩
    intro name addr u u2 h1 h2
    rw [hget name, h2] at h1
    injection h1 with h3
    rw [h3]

/-- C9 witness: the same two distinct-name entries loaded in both orders,
the second time from a different starting set, agree observably. -/
theorem load_same_file_idempotent_C9_witness :
    ∃ r2, loadUserIndex (FileInput.parsed [("b:y", ["*"]), ("a:x", [])])
        (Users.mk [("z", User.mk "z" "q" [])]) = (Except.ok (), r2) ∧
      r2.Len = (Users.mk [("a", User.mk "a" "x" []),
        ("b", User.mk "b" "y" [Matcher.allowAll])]).Len ∧
      (∀ name, r2.Get name = (Users.mk [("a", User.mk "a" "x" []),
        ("b", User.mk "b" "y" [Matcher.allowAll])]).Get name) ∧
      (∀ name addr u u2, r2.Get name = some u →
        (Users.mk [("a", User.mk "a" "x" []),
          ("b", User.mk "b" "y" [Matcher.allowAll])]).Get name = some u2 →
        u.Addrs.map (fun m => m.accepts addr) = u2.Addrs.map (fun m => m.accepts addr)) :=
  load_same_file_idempotent_C9 [("a:x", []), ("b:y", ["*"])] [("b:y", ["*"]), ("a:x", [])]
    NewUsers (Users.mk [("z", User.mk "z" "q" [])])
    (Users.mk [("a", User.mk "a" "x" []), ("b", User.mk "b" "y" [Matcher.allowAll])])
    (List.Perm.swap _ _ _) (by decide) rfl

/-- C9 counterexample: the decoded object of the file
with keys "a:x" and "a:y" — both orders below are legal iteration orders of
the same Go map, hence two loads of the same file — loads successfully to
snapshots that disagree on the secret of "a", refuting the claim as
stated. -/
theorem load_idempotent_C9_counterexample :
    ([("a:y", ([] : List String)), ("a:x", [])]).Perm [("a:x", []), ("a:y", [])] ∧
    loadUserIndex (FileInput.parsed [("a:x", []), ("a:y", [])]) NewUsers =
      (Except.ok (), Users.mk [("a", User.mk "a" "y" [])]) ∧
    loadUserIndex (FileInput.parsed [("a:y", []), ("a:x", [])]) NewUsers =
      (Except.ok (), Users.mk [("a", User.mk "a" "x" [])]) ∧
    (Users.mk [("a", User.mk "a" "y" [])]).Get "a" ≠
      (Users.mk [("a", User.mk "a" "x" [])]).Get "a" :=
  ⟨List.Perm.swap _ _ _, rfl, rfl, by decide⟩

/-- C10: resetting with the empty sequence empties the set — zero count and
no key found — and a successful load of the empty JSON object does exactly
that, while a failed load (for instance invalid JSON) leaves the set as it
was. -/
theorem reset_empty_clears_C10 (s : Users) :
    (s.Reset []).Len = 0 ∧ (∀ k, (s.Reset []).Get k = none) ∧
    loadUserIndex (FileInput.parsed []) s = (Except.ok (), s.Reset []) ∧
    ∀ msg, loadUserIndex (FileInput.invalidJson msg) s =
      (Except.error ("Invalid JSON: " ++ msg), s) :=
  ⟨rfl, fun _ => rfl, rfl, fun _ => rfl⟩

/-- C5: the empty pattern and the sole wildcard each compile — in the file
loader's pattern loop and in the database row loop alike — to the allow-all
sentinel, and that matcher accepts every probed address string, the empty and
malformed ones included. -/
theorem wildcard_allows_all_C5 :
    compilePattern "" = Except.ok UserAllowAll ∧
    compilePattern "*" = Except.ok UserAllowAll ∧
    compileAddrs ["", "*"] = Except.ok [UserAllowAll, UserAllowAll] ∧
    scanRows true [Except.ok ⟨"u", "p", ["", "*"]⟩] =
      Except.ok [{ Name := "u", Pass := "p", Addrs := [UserAllowAll, UserAllowAll] }] ∧
    ∀ addr : String, Matcher.accepts UserAllowAll addr = true :=
  ⟨rfl, rfl, rfl, rfl, fun _ => rfl⟩

/-- C2: every failing file load — unreadable file, invalid JSON, an entry
with an empty parsed name, or a single uncompilable address pattern — returns
an error and leaves the set exactly as it was; likewise a database reload
failing during row scan does not succeed and never reaches `Reset`, and any
non-successful database reload leaves the set unchanged. -/
theorem load_failure_preserves_users_C2 :
    (∀ (s : Users) msg, loadUserIndex (FileInput.unreadable msg) s =
      (Except.error ("Failed to read auth file: " ++ msg), s)) ∧
    (∀ (s : Users) msg, loadUserIndex (FileInput.invalidJson msg) s =
      (Except.error ("Invalid JSON: " ++ msg), s)) ∧
    (∀ (s : Users) raw e r, loadUserIndex (FileInput.parsed raw) s = (Except.error e, r) →
      r = s) ∧
    (∀ (s : Users) raw auth remotes, (auth, remotes) ∈ raw → (ParseAuth auth).1 = "" →
      ∃ e, loadUserIndex (FileInput.parsed raw) s = (Except.error e, s)) ∧
    (∀ (s : Users) raw auth remotes pat, (auth, remotes) ∈ raw → pat ∈ remotes →
      (∃ msg, compilePattern pat = Except.error msg) →
      ∃ e, loadUserIndex (FileInput.parsed raw) s = (Except.error e, s)) ∧
    (∀ db (s : Users) o r, updateUsersData db s = (o, r) → o ≠ Outcome.ok → r = s) ∧
    (∀ db (s : Users) m, Except.error m ∈ db.rows →
      (updateUsersData db s).1 ≠ Outcome.ok ∧ (updateUsersData db s).2 = s) :=
  ⟨fun _ _ => rfl,
   fun _ _ => rfl,
   fun s raw e r h => loadUserIndex_error_state (FileInput.parsed raw) s e r h,
   fun s raw auth remotes hmem hname => load_error_of_empty_name s raw auth remotes hmem hname,
   fun s raw auth remotes pat hmem hpat hbad =>
     load_error_of_bad_pattern s raw auth remotes pat hmem hpat hbad,
   fun db s o r h ho => updateUsersData_error_state db s o r h ho,
   fun db s m hm => updateUsersData_badRow db s m hm⟩

/-- C2 witness: a load with one malformed address pattern fails and leaves
the set untouched. -/
theorem load_failure_preserves_users_C2_witness :
    ∃ e, loadUserIndex (FileInput.parsed [("a:b", ["("])]) NewUsers =
      (Except.error e, NewUsers) :=
  load_failure_preserves_users_C2.2.2.2.2.1 NewUsers [("a:b", ["("])] "a:b" ["("] "("
    (List.mem_singleton.mpr rfl) (List.mem_singleton.mpr rfl)
    ⟨"Invalid address regex", rfl⟩

/-- C6: a JSON key without a colon, or with an empty part before its first
colon, parses to an empty name, and the presence of such an entry makes the
whole load fail (no per-entry recovery), leaving the set untouched. -/
theorem empty_name_fatal_C6 (auth : String)
    (h : ':' ∉ auth.data ∨ auth.data.head? = some ':') :
    (ParseAuth auth).1 = "" ∧
    ∀ raw remotes (s : Users), (auth, remotes) ∈ raw →
      ∃ e, loadUserIndex (FileInput.parsed raw) s = (Except.error e, s) := by
  have hname : (ParseAuth auth).1 = "" := by
    rcases h with h | h
    · simp [ParseAuth, h]
    · cases hd : auth.data with
      | nil => rw [hd] at h; cases h
      | cons c rest =>
        rw [hd] at h
        have hc : c = ':' := by simpa using h
        have hmem : ':' ∈ auth.data := by
          rw [hd]
          exact hc ▸ List.mem_cons_self c rest
        unfold ParseAuth
        rw [if_pos hmem]
        show String.mk (auth.data.takeWhile (fun c => c ≠ ':')) = ""
        rw [hd, hc]
        simp [List.takeWhile]
  exact ⟨hname, fun raw remotes s hmem => load_error_of_empty_name s raw auth remotes hmem hname⟩

/-- C6 witness: a colonless key parses to the empty name and poisons the
whole load. -/
theorem empty_name_fatal_C6_witness :
    (ParseAuth "nocolon").1 = "" ∧
    ∃ e, loadUserIndex (FileInput.parsed [("nocolon", ["*"])]) NewUsers =
      (Except.error e, NewUsers) :=
  ⟨(empty_name_fatal_C6 "nocolon" (Or.inl (by decide))).1,
   (empty_name_fatal_C6 "nocolon" (Or.inl (by decide))).2 [("nocolon", ["*"])] ["*"] NewUsers
     (List.mem_singleton.mpr rfl)⟩

/-- C8: on a successful database reload, without an `addresses` column every
principal found in the set carries exactly the single allow-all matcher; with
the column, each principal's matchers are exactly the compiled address
strings of its row; and the result of a reload depends only on the database
presented to that reload — nothing about a previous shape is cached. -/
theorem db_schema_shape_C8 :
    (∀ db (s r : Users), db.hasAddresses = false → updateUsersData db s = (Outcome.ok, r) →
      ∀ k u, r.Get k = some u → u.Addrs = [UserAllowAll]) ∧
    (∀ db (s r : Users), db.hasAddresses = true → updateUsersData db s = (Outcome.ok, r) →
      ∀ k u, r.Get k = some u →
        ∃ row, Except.ok row ∈ db.rows ∧ row.username = u.Name ∧
          compileAddrs row.addresses = Except.ok u.Addrs) ∧
    (∀ db (s t r : Users), updateUsersData db s = (Outcome.ok, r) →
      updateUsersData db t = (Outcome.ok, r)) := by
  refine ⟨?_, ?_, ?_⟩
  · intro db s r hcol h k u hget
    obtain ⟨users, _, _, hscan, _, hr⟩ := updateUsersData_ok db s r h
    subst hr
    obtain ⟨hmem, _⟩ := get_reset_mem s users k u hget
    rw [hcol] at hscan
    exact scanRows_false_allowAll db.rows users hscan u hmem
  · intro db s r hcol h k u hget
    obtain ⟨users, _, _, hscan, _, hr⟩ := updateUsersData_ok db s r h
    subst hr
    obtain ⟨hmem, _⟩ := get_reset_mem s users k u hget
    rw [hcol] at hscan
    obtain ⟨row, hrow, h1, _, h3⟩ := scanRows_true_compiled db.rows users hscan u hmem
    exact ⟨row, hrow, h1, h3⟩
  · intro db s t r h
    obtain ⟨users, h1, h2, hscan, h4, hr⟩ := updateUsersData_ok db s r h
    subst hr
    unfold updateUsersData
    rw [if_pos h1, if_pos h2, hscan, h4]
    rfl

/-- C8 witness: a one-row table without the column yields the allow-all
matcher; the same row with the column yields the compiled pattern; the second
reload result is independent of the set it starts from. -/
theorem db_schema_shape_C8_witness :
    (∀ k u, (Users.mk [("u", User.mk "u" "p" [Matcher.allowAll])]).Get k = some u →
      u.Addrs = [UserAllowAll]) ∧
    (∀ k u, (Users.mk [("u", User.mk "u" "p" [Matcher.regex ⟨"10"⟩])]).Get k = some u →
      ∃ row, Except.ok row ∈ ([Except.ok (DbRow.mk "u" "p" ["10"])] : List (Except String DbRow)) ∧
        row.username = u.Name ∧ compileAddrs row.addresses = Except.ok u.Addrs) ∧
    updateUsersData ⟨true, true, true, [Except.ok (DbRow.mk "u" "p" ["10"])], none⟩
        (Users.mk [("z", User.mk "z" "q" [])]) =
      (Outcome.ok, Users.mk [("u", User.mk "u" "p" [Matcher.regex ⟨"10"⟩])]) := by
  refine ⟨?_, ?_, ?_⟩
  · exact db_schema_shape_C8.1 ⟨true, false, true, [Except.ok (DbRow.mk "u" "p" ["10"])], none⟩
      NewUsers (Users.mk [("u", User.mk "u" "p" [Matcher.allowAll])]) rfl rfl
  · exact db_schema_shape_C8.2.1 ⟨true, true, true, [Except.ok (DbRow.mk "u" "p" ["10"])], none⟩
      NewUsers (Users.mk [("u", User.mk "u" "p" [Matcher.regex ⟨"10"⟩])]) rfl rfl
  · exact db_schema_shape_C8.2.2 ⟨true, true, true, [Except.ok (DbRow.mk "u" "p" ["10"])], none⟩
      NewUsers (Users.mk [("z", User.mk "z" "q" [])])
      (Users.mk [("u", User.mk "u" "p" [Matcher.regex ⟨"10"⟩])]) rfl

/-- C3: refutation at the database source — with a parseable connection
string but a failing connection, the initial load fails, yet the
`listenForChanges` background task was already started, because the
goroutine is launched before the connect error is checked and before the
initial `updateUsersData` runs. -/
theorem db_listen_started_despite_failed_load_C3 :
    (LoadUsersFromDatabase ⟨true, false, ⟨true, true, true, [], none⟩⟩ none NewUsers).outcome ≠
      Outcome.ok ∧
    (LoadUsersFromDatabase ⟨true, false, ⟨true, true, true, [], none⟩⟩ none
      NewUsers).listenStarted = true ∧
    (LoadUsersFromDatabase ⟨true, false, ⟨true, true, true, [], none⟩⟩ none NewUsers).queryIssued =
      false :=
  ⟨by decide, rfl, rfl⟩

/-- C7: at an invalid table name the code hits `log.Fatalf` — modelled as the
`exit` outcome, i.e. process termination — so the invalid-table-name error is
never returned to the caller (the `return` after `log.Fatalf` is dead code);
no connection is made, no listener started, and no query issued. -/
theorem invalid_table_name_exits_C7 :
    LoadUsersFromDatabase ⟨true, true, ⟨true, true, true, [], none⟩⟩ (some "1bad") NewUsers =
      ⟨Outcome.exit "Invalid table name", NewUsers, false, false⟩ := rfl
